import Mathlib

/-!
Verification development for the SettingsTree repository (version 0.3,
`SettingsTree/__init__.py`).

The development shallowly embeds the two components of the source file:

* the `Leaf` class (an individual setting with its validity constraints and
  the `is_valid` method), and
* the dict-based `Tree` class (path resolution, value extraction, the
  transactional `set_values`, validity checking and `diff`).

Python values are modelled by the inductive type `PyObj`.  Python `==` is
modelled by `PyObj.beq` (numeric values compare numerically across
`int`/`float`, exactly as in Python; container equality is element-wise and
for dict entries order-sensitive, which agrees with Python on every value the
library manipulates in the claims under study).  Python exceptions are
modelled by `Except`/`Option` results; the distinct exception classes that
matter (`TypeError`, `KeyError`, `IndexError`, `RecursionError` from stack
exhaustion) are the constructors of `ErrK`.

User-supplied callables (custom validator functions of `Leaf`, and the
`validator` entries of the dict-based `Tree`) are modelled as indices into an
environment that is passed to the operations, mirroring the fact that the
source stores opaque function objects and merely calls them.  An environment
function returning `Option.none` models the call raising an exception.
-/

namespace SettingsTreeSpec

/-- Python strings are modelled as lists of characters. -/
abbrev Str := List Char

/-- The run-time types (`type` objects) that occur in the observed usage of
the library; `valid_value_types` tuples hold such objects. -/
inductive PyType where
  | intT
  | floatT
  | strT
  | noneT
  | typeT
  | functionT
  | tupleT
  deriving DecidableEq, Repr

/-- Python values, covering the kinds of objects the source manipulates:
`None`, numbers (`int` and `float`, with `float` modelled as a rational),
strings, `type` objects, function objects (identified by an index into an
environment), iterables (`tuple`/`list`, conflated) and string-keyed dicts. -/
inductive PyObj where
  | none
  | int (n : Int)
  | float (q : Rat)
  | str (s : Str)
  | type (t : PyType)
  | func (fid : Nat)
  | iter (xs : List PyObj)
  | dict (entries : List (Str × PyObj))

/-- The Python run-time type of a value (`type(v)`). -/
def typeOf : PyObj → PyType
  | .none => .noneT
  | .int _ => .intT
  | .float _ => .floatT
  | .str _ => .strT
  | .type _ => .typeT
  | .func _ => .functionT
  | .iter _ => .tupleT
  | .dict _ => .tupleT

/-- Numeric view of a value: Python compares `int` and `float` numerically. -/
def toNum : PyObj → Option Rat
  | .int n => some (n : Rat)
  | .float q => some q
  | _ => Option.none

mutual

/-- Python `==` on the modelled values.  Numbers compare numerically across
`int`/`float`; all other comparisons are structural. -/
def PyObj.beq : PyObj → PyObj → Bool
  | .int a, .int b => a == b
  | .int a, .float b => (a : Rat) == b
  | .float a, .int b => a == (b : Rat)
  | .float a, .float b => a == b
  | .none, .none => true
  | .str a, .str b => a == b
  | .type a, .type b => a == b
  | .func a, .func b => a == b
  | .iter a, .iter b => PyObj.beqList a b
  | .dict a, .dict b => PyObj.beqEntries a b
  | _, _ => false

/-- Element-wise Python `==` on sequences. -/
def PyObj.beqList : List PyObj → List PyObj → Bool
  | [], [] => true
  | a :: as, b :: bs => PyObj.beq a b && PyObj.beqList as bs
  | _, _ => false

/-- Entry-wise Python `==` on dict entry lists. -/
def PyObj.beqEntries : List (Str × PyObj) → List (Str × PyObj) → Bool
  | [], [] => true
  | (k₁, v₁) :: as, (k₂, v₂) :: bs =>
    k₁ == k₂ && PyObj.beq v₁ v₂ && PyObj.beqEntries as bs
  | _, _ => false

end

/-- Python `v in xs` on a tuple/list with elements `xs`: membership tested
with `==` against each element. -/
def pyIn (v : PyObj) (xs : List PyObj) : Bool :=
  xs.any (fun x => PyObj.beq x v)

/-- Whether a value is an instance of `collections.Iterable`: tuples/lists,
strings and dicts are; numbers, `None`, types and functions are not. -/
def pyIterable : PyObj → Bool
  | .iter _ => true
  | .str _ => true
  | .dict _ => true
  | _ => false

/-- The elements produced by iterating a value (`for v in x`): list/tuple
elements, one-character strings for a string, the keys for a dict.  Returns
`[]` for non-iterables (callers guard with `pyIterable`). -/
def pyElems : PyObj → List PyObj
  | .iter xs => xs
  | .str s => s.map (fun c => PyObj.str [c])
  | .dict entries => entries.map (fun kv => PyObj.str kv.1)
  | _ => []

/-- Python `len` of an iterable value (callers guard with `pyIterable`). -/
def pyLen (x : PyObj) : Nat :=
  (pyElems x).length

/-- Python subscription `x[i]` with a non-negative integer index, as used on
the iterable entries of the `validators` setter.  `Option.none` models the
lookup raising: a dict subscripted with an integer raises `KeyError` (the
modelled dicts have string keys only). -/
def pyGet (x : PyObj) (i : Nat) : Option PyObj :=
  match x with
  | .iter xs => xs.get? i
  | .str s => (s.get? i).map (fun c => PyObj.str [c])
  | _ => Option.none

/-- Whether a value is an instance of `numbers.Number`. -/
def isNumber : PyObj → Bool
  | .int _ => true
  | .float _ => true
  | _ => false

/-- Python `a < b` on the modelled values; `Option.none` models the
comparison raising `TypeError`.  Numbers compare numerically, strings
lexicographically; the source only ever compares numbers (validator
parameters) so container comparisons are modelled as unsupported. -/
def pyLt (a b : PyObj) : Option Bool :=
  match toNum a, toNum b with
  | some x, some y => some (decide (x < y))
  | _, _ =>
    match a, b with
    | .str s₁, .str s₂ => some (decide (s₁ < s₂))
    | _, _ => Option.none

/-- Python `a <= b`, on the same domain as `pyLt`. -/
def pyLe (a b : PyObj) : Option Bool :=
  match toNum a, toNum b with
  | some x, some y => some (decide (x ≤ y))
  | _, _ =>
    match a, b with
    | .str s₁, .str s₂ => some (decide (s₁ ≤ s₂))
    | _, _ => Option.none

/-- Python `a > b` (`pyLt` with the arguments swapped, as for the modelled
value kinds `a > b` and `b < a` agree). -/
def pyGt (a b : PyObj) : Option Bool :=
  pyLt b a

/-- Python `a >= b`. -/
def pyGe (a b : PyObj) : Option Bool :=
  pyLe b a

/-- Python `min(p)` over an iterable `p`: the running minimum under `<`,
starting from the first element.  `Option.none` models raising: `TypeError`
for a non-iterable or an incomparable pair, `ValueError` for an empty one. -/
def pyMinOf (p : PyObj) : Option PyObj :=
  if !(pyIterable p) then Option.none
  else
    match pyElems p with
    | [] => Option.none
    | x :: rest =>
      rest.foldl
        (fun acc y =>
          acc.bind (fun best =>
            (pyLt y best).map (fun lt => if lt then y else best)))
        (some x)

/-- Python `max(p)` over an iterable `p`, analogous to `pyMinOf`. -/
def pyMaxOf (p : PyObj) : Option PyObj :=
  if !(pyIterable p) then Option.none
  else
    match pyElems p with
    | [] => Option.none
    | x :: rest =>
      rest.foldl
        (fun acc y =>
          acc.bind (fun best =>
            (pyGt y best).map (fun gt => if gt then y else best)))
        (some x)

/-- The exception kinds the embedding distinguishes. -/
inductive ErrK where
  | typeError
  | keyError
  | indexError
  | valueError
  | recursionError
  deriving DecidableEq, Repr

/-! ## The Leaf class -/

/-- The post-construction state of a `Leaf` (`SettingsTree.Leaf`): the value
slot and the five constraint slots.  A constraint slot holding `Option.none`
corresponds to the Python attribute being `None` (constraint unused).  The
custom validator function is stored as an index into a `VFEnv` environment
(the source stores the function object itself).  The extra-parameters dict is
omitted: it plays no role in validity or in the setters under study. -/
structure Leaf where
  value : PyObj
  validator_function : Option Nat
  valid_value_types : Option (List PyObj)
  allowed_values : Option (List PyObj)
  forbidden_values : Option (List PyObj)
  validators : Option (List (PyObj × PyObj))

/-- Environment interpreting stored custom validator functions: the function
object `fid` applied to `(value, all_settings)`.  `Option.none` models the
call raising an exception. -/
abbrev VFEnv := Nat → PyObj → List (Str × PyObj) → Option Bool

/-- A blank leaf (Python `Leaf()` with no arguments): value `None`, no
constraints. -/
def Leaf.blank : Leaf :=
  ⟨PyObj.none, Option.none, Option.none, Option.none, Option.none,
    Option.none⟩

/-- The names of the available simple validators, in the order returned by
`Leaf.available_validators`. -/
def availableValidatorNames : List PyObj :=
  [.str "GreaterThan".toList, .str "GreaterThanOrEqualTo".toList,
   .str "LessThan".toList, .str "LessThanOrEqualTo".toList,
   .str "Between".toList, .str "NotBetween".toList,
   .str "NotEqual".toList]

/-- The parameter count of an available simple validator name (the
`number_parameters` component of `Leaf.available_validators`); `1` for
unknown names (callers only use it after membership in
`availableValidatorNames`). -/
def validatorArity (name : PyObj) : Nat :=
  if PyObj.beq name (.str "Between".toList)
      || PyObj.beq name (.str "NotBetween".toList) then 2 else 1

/-- One simple-validator application from the `vals` dispatch table in
`Leaf.is_valid`: the named predicate applied to the leaf value `v` and the
stored parameter object `params`.  `Except.error` models an exception
propagating out of the check (a `TypeError` from an unsupported comparison,
or a `KeyError` for a name absent from the table). -/
def applySimpleValidator (name : PyObj) (v params : PyObj) :
    Except ErrK Bool :=
  if PyObj.beq name (.str "GreaterThan".toList) then
    match pyGt v params with
    | some b => .ok b
    | Option.none => .error .typeError
  else if PyObj.beq name (.str "LessThan".toList) then
    match pyLt v params with
    | some b => .ok b
    | Option.none => .error .typeError
  else if PyObj.beq name (.str "GreaterThanOrEqualTo".toList) then
    match pyGe v params with
    | some b => .ok b
    | Option.none => .error .typeError
  else if PyObj.beq name (.str "LessThanOrEqualTo".toList) then
    match pyLe v params with
    | some b => .ok b
    | Option.none => .error .typeError
  else if PyObj.beq name (.str "NotEqual".toList) then
    .ok (!(PyObj.beq v params))
  else if PyObj.beq name (.str "Between".toList) then
    match pyMinOf params with
    | Option.none => .error .typeError
    | some m =>
      match pyGe v m with
      | Option.none => .error .typeError
      | some false => .ok false
      | some true =>
        match pyMaxOf params with
        | Option.none => .error .typeError
        | some mx =>
          match pyLe v mx with
          | Option.none => .error .typeError
          | some b => .ok b
  else if PyObj.beq name (.str "NotBetween".toList) then
    match pyMinOf params with
    | Option.none => .error .typeError
    | some m =>
      match pyLe v m with
      | Option.none => .error .typeError
      | some true => .ok true
      | some false =>
        match pyMaxOf params with
        | Option.none => .error .typeError
        | some mx =>
          match pyGe v mx with
          | Option.none => .error .typeError
          | some b => .ok b
  else .error .keyError

/-- Stage 1 of `Leaf.is_valid`: `self._value not in self._valid_value_types`
negated.  Note that the source (line 424) tests membership of the *value*
among the stored type objects with `in` (Python `==`), not membership of the
value's run-time type. -/
def checkTypesOK (l : Leaf) : Bool :=
  match l.valid_value_types with
  | some ts => pyIn l.value ts
  | Option.none => true

/-- Stage 2 of `Leaf.is_valid`: the `allowed_values` membership test. -/
def checkAllowedOK (l : Leaf) : Bool :=
  match l.allowed_values with
  | some xs => pyIn l.value xs
  | Option.none => true

/-- Stage 3 of `Leaf.is_valid`: the `forbidden_values` membership test. -/
def checkForbiddenOK (l : Leaf) : Bool :=
  match l.forbidden_values with
  | some xs => !(pyIn l.value xs)
  | Option.none => true

/-- Stage 4 of `Leaf.is_valid`: run the stored simple validators in order,
returning `false` on the first failing one and propagating any exception. -/
def runSimpleValidators (v : PyObj) : List (PyObj × PyObj) → Except ErrK Bool
  | [] => .ok true
  | (name, params) :: rest =>
    match applySimpleValidator name v params with
    | .error e => .error e
    | .ok false => .ok false
    | .ok true => runSimpleValidators v rest

/-- Stage 5 of `Leaf.is_valid`: the custom validator function call wrapped in
`try`/`except` (source lines 450–456), followed by the final `return True`. -/
def Leaf.validatorFunctionStage (env : VFEnv) (l : Leaf)
    (all_settings : List (Str × PyObj)) : Except ErrK Bool :=
  match l.validator_function with
  | some fid =>
    match env fid l.value all_settings with
    | some b => .ok b
    | Option.none => .ok false
  | Option.none => .ok true

/-- `Leaf.is_valid(all_settings)`: the five validity stages in source order.
Stages 1–3 are the membership tests; stage 4 runs the simple validators
(exceptions propagate); stage 5 calls the custom validator function inside
`try`/`except`, turning any exception into `False` and otherwise returning
the function's result. -/
def Leaf.is_valid (env : VFEnv) (l : Leaf)
    (all_settings : List (Str × PyObj)) : Except ErrK Bool :=
  if !(checkTypesOK l) then .ok false
  else if !(checkAllowedOK l) then .ok false
  else if !(checkForbiddenOK l) then .ok false
  else
    match l.validators with
    | some vs =>
      match runSimpleValidators l.value vs with
      | .error e => .error e
      | .ok false => .ok false
      | .ok true => Leaf.validatorFunctionStage env l all_settings
    | Option.none => Leaf.validatorFunctionStage env l all_settings

/-! ## The Leaf constraint setters -/

/-- Whether a value is a `type` object. -/
def isTypeObj : PyObj → Bool
  | .type _ => true
  | _ => false

/-- The `valid_value_types` setter (source lines 175–188).  The result pairs
the post-call leaf with the exception raised, if any; the stored slot is only
assigned after all elements pass the `isinstance(v, type)` loop. -/
def Leaf.set_valid_value_types (l : Leaf) (x : PyObj) : Leaf × Option ErrK :=
  match x with
  | .none => ({ l with valid_value_types := Option.none }, Option.none)
  | .type _ => ({ l with valid_value_types := some [x] }, Option.none)
  | _ =>
    if pyIterable x then
      if (pyElems x).all isTypeObj then
        ({ l with valid_value_types := some (pyElems x) }, Option.none)
      else (l, some .typeError)
    else (l, some .typeError)

/-- The `allowed_values` setter (source lines 213–220). -/
def Leaf.set_allowed_values (l : Leaf) (x : PyObj) : Leaf × Option ErrK :=
  match x with
  | .none => ({ l with allowed_values := Option.none }, Option.none)
  | _ =>
    if pyIterable x then
      ({ l with allowed_values := some (pyElems x) }, Option.none)
    else (l, some .typeError)

/-- The `forbidden_values` setter (source lines 244–251). -/
def Leaf.set_forbidden_values (l : Leaf) (x : PyObj) : Leaf × Option ErrK :=
  match x with
  | .none => ({ l with forbidden_values := Option.none }, Option.none)
  | _ =>
    if pyIterable x then
      ({ l with forbidden_values := some (pyElems x) }, Option.none)
    else (l, some .typeError)

/-- The validity check the `validators` setter performs on one entry `v` of
the supplied iterable: a two-element iterable whose first element is an
available name and whose second matches the arity (`Option.none` = entry
accepted, otherwise the exception raised). -/
def validatorEntryCheck (v : PyObj) : Option ErrK :=
  if !(pyIterable v) then some .typeError
  else if pyLen v != 2 then some .typeError
  else
    match pyGet v 0 with
    | Option.none => some .keyError
    | some v0 =>
      if !(pyIn v0 availableValidatorNames) then some .typeError
      else
        match pyGet v 1 with
        | Option.none => some .keyError
        | some v1 =>
          if validatorArity v0 == 1 then
            if isNumber v1 then Option.none else some .typeError
          else
            if !(pyIterable v1) then some .typeError
            else if pyLen v1 != 2 then some .typeError
            else
              match pyGet v1 0, pyGet v1 1 with
              | some p₀, some p₁ =>
                if isNumber p₀ && isNumber p₁ then Option.none
                else some .typeError
              | _, _ => some .keyError

/-- The first exception raised by the entry-checking loop of the
`validators` setter, if any. -/
def firstEntryErr : List PyObj → Option ErrK
  | [] => Option.none
  | v :: rest =>
    match validatorEntryCheck v with
    | some e => some e
    | Option.none => firstEntryErr rest

/-- The `validators` setter (source lines 289–319): `None` clears the slot, a
non-iterable raises, and otherwise every entry is checked *before* the slot
is assigned to the tuple of `(name, parameters)` pairs. -/
def Leaf.set_validators (l : Leaf) (x : PyObj) : Leaf × Option ErrK :=
  match x with
  | .none => ({ l with validators := Option.none }, Option.none)
  | _ =>
    if !(pyIterable x) then (l, some .typeError)
    else
      match firstEntryErr (pyElems x) with
      | some e => (l, some e)
      | Option.none =>
        ({ l with validators := some ((pyElems x).map (fun v =>
            ((pyGet v 0).getD .none, (pyGet v 1).getD .none))) },
          Option.none)

/-- The `validator_function` setter (source lines 352–359): `None` clears the
slot, a function object is stored, anything else raises `TypeError`. -/
def Leaf.set_validator_function (l : Leaf) (x : PyObj) : Leaf × Option ErrK :=
  match x with
  | .none => ({ l with validator_function := Option.none }, Option.none)
  | .func fid => ({ l with validator_function := some fid }, Option.none)
  | _ => (l, some .typeError)

/-! ## Concrete leaves and environments used in the Leaf theorems -/

/-- An environment in which every custom validator function returns `True`. -/
def envAlwaysTrue : VFEnv := fun _ _ _ => some true

/-- An environment in which every custom validator function raises. -/
def envRaises : VFEnv := fun _ _ _ => Option.none

/-- A leaf holding the `int` value `3` whose `valid_value_types` is the tuple
`(int,)` — the configuration of the repository's own test
`test_validation_type_valid_single` (with `int` in place of `float`). -/
def leafIntWithIntType : Leaf :=
  ⟨.int 3, Option.none, some [.type .intT], Option.none, Option.none,
    Option.none⟩

/-- A leaf whose only constraint is `validators = [('NotBetween', (0, 2))]`
and whose value is the lower bound `0`. -/
def leafNotBetweenAtLo : Leaf :=
  ⟨.int 0, Option.none, Option.none, Option.none, Option.none,
    some [(.str "NotBetween".toList, .iter [.int 0, .int 2])]⟩

/-- A leaf whose only constraint is a custom validator function (index `0`)
and whose value is `5`. -/
def leafWithFunctionOnly : Leaf :=
  ⟨.int 5, some 0, Option.none, Option.none, Option.none, Option.none⟩

/-- A leaf whose value is `v` and whose only constraint is the simple
validator `(name, (lo, hi))`. -/
def leafWithPairValidator (name : String) (lo hi v : Int) : Leaf :=
  ⟨.int v, Option.none, Option.none, Option.none, Option.none,
    some [(.str name.toList, .iter [.int lo, .int hi])]⟩

/-! ## C1 -/

/-- C1: the claim states that the `valid_value_types` stage of
`Leaf.is_valid` never rejects a value whose run-time type is one of the
listed types.  The code instead tests `self._value not in
self._valid_value_types` (membership of the value itself among the stored
type objects, source line 424), so a leaf holding the `int` value `3` with
`valid_value_types = (int,)` — whose run-time type `int` is listed — is
reported invalid.  This also contradicts the repository's own test
`test_validation_type_valid_single`. -/
theorem C1_type_check_uses_value_membership :
    typeOf leafIntWithIntType.value = PyType.intT ∧
    leafIntWithIntType.valid_value_types = some [.type .intT] ∧
    Leaf.is_valid envAlwaysTrue leafIntWithIntType [] = .ok false :=
  ⟨rfl, rfl, rfl⟩

/-! ## C6 -/

/-- C6: when a custom validator function is set and every earlier stage
passes (the three membership checks hold and the simple validators all
succeed), `Leaf.is_valid` calls the function on `(value, all_settings)` and
returns exactly its boolean result, with an exception (a call returning
`Option.none` in the environment) converted to `False`; in particular the
result is always `Except.ok _`, never a propagated exception. -/
theorem C6_validator_function_result_is_final (env : VFEnv) (l : Leaf)
    (s : List (Str × PyObj)) (fid : Nat)
    (hf : l.validator_function = some fid)
    (h1 : checkTypesOK l = true)
    (h2 : checkAllowedOK l = true)
    (h3 : checkForbiddenOK l = true)
    (h4 : match l.validators with
          | some vs => runSimpleValidators l.value vs = .ok true
          | Option.none => True) :
    Leaf.is_valid env l s = .ok ((env fid l.value s).getD false) := by
  unfold Leaf.is_valid
  rw [h1, h2, h3]
  simp only [Bool.not_true, Bool.false_eq_true, if_false]
  have hstage : Leaf.validatorFunctionStage env l s =
      .ok ((env fid l.value s).getD false) := by
    unfold Leaf.validatorFunctionStage
    rw [hf]
    cases henv : env fid l.value s <;> simp [henv]
  cases hv : l.validators with
  | none => simpa using hstage
  | some vs =>
    rw [hv] at h4
    have h4' : runSimpleValidators l.value vs = .ok true := by
      simpa using h4
    simpa [h4'] using hstage

/-- Witness for C6: a concrete leaf whose validator function raises; the
earlier stages trivially pass and `is_valid` returns `Except.ok false`. -/
theorem C6_witness :
    Leaf.is_valid envRaises leafWithFunctionOnly [] = .ok false :=
  Eq.trans
    (C6_validator_function_result_is_final envRaises leafWithFunctionOnly []
      0 rfl rfl rfl rfl trivial)
    rfl

/-! ## C7 -/

/-- C7 counterexample: the claim states that with bounds `lo < hi` a value
equal to `lo` is invalid under the `NotBetween` validator.  On the code (and
on the code's own documentation table, `V <= min(X, Y) OR V >= max(X, Y)`),
the boundary value `0` of `NotBetween (0, 2)` satisfies `V <= min` and the
leaf is reported *valid*. -/
theorem C7_counterexample_notbetween_boundary_is_valid :
    Leaf.is_valid envAlwaysTrue leafNotBetweenAtLo [] = .ok true :=
  rfl

/-- With `lo < hi`, `min((lo, hi))` evaluates to `lo`. -/
theorem pyMinOf_pair (lo hi : Int) (h : lo < hi) :
    pyMinOf (.iter [.int lo, .int hi]) = some (.int lo) := by
  have hcast : ¬((hi : Rat) < (lo : Rat)) := by
    rw [not_lt]
    exact_mod_cast le_of_lt h
  simp [pyMinOf, pyIterable, pyElems, pyLt, toNum, hcast]

/-- With `lo < hi`, `max((lo, hi))` evaluates to `hi`. -/
theorem pyMaxOf_pair (lo hi : Int) (h : lo < hi) :
    pyMaxOf (.iter [.int lo, .int hi]) = some (.int hi) := by
  have hcast : (lo : Rat) < (hi : Rat) := by exact_mod_cast h
  simp [pyMaxOf, pyIterable, pyElems, pyGt, pyLt, toNum, hcast]

/-- C7 (amended): for bounds `lo < hi`, a leaf whose value equals `lo` or
`hi` and whose only constraint is the `Between` validator is valid, and the
same holds for the `NotBetween` validator — the boundary values are *valid*
under both (the claim as stated holds for `Between` but asserts the opposite
for `NotBetween`). -/
theorem C7_boundary_values (lo hi : Int) (h : lo < hi) :
    Leaf.is_valid envAlwaysTrue (leafWithPairValidator "Between" lo hi lo) []
        = .ok true ∧
    Leaf.is_valid envAlwaysTrue (leafWithPairValidator "Between" lo hi hi) []
        = .ok true ∧
    Leaf.is_valid envAlwaysTrue (leafWithPairValidator "NotBetween" lo hi lo)
        [] = .ok true ∧
    Leaf.is_valid envAlwaysTrue (leafWithPairValidator "NotBetween" lo hi hi)
        [] = .ok true := by
  have hlo : (lo : Rat) ≤ (lo : Rat) := le_refl _
  have hhi : (hi : Rat) ≤ (hi : Rat) := le_refl _
  have hlh : (lo : Rat) ≤ (hi : Rat) := by exact_mod_cast le_of_lt h
  have hnl : ¬((hi : Rat) ≤ (lo : Rat)) := by
    rw [not_le]
    exact_mod_cast h
  refine ⟨?_, ?_, ?_, ?_⟩ <;>
    simp [Leaf.is_valid, leafWithPairValidator, checkTypesOK, checkAllowedOK,
      checkForbiddenOK, runSimpleValidators, applySimpleValidator,
      PyObj.beq, pyMinOf_pair lo hi h, pyMaxOf_pair lo hi h, pyGe, pyLe,
      toNum, hlo, hhi, hlh, hnl, Leaf.validatorFunctionStage, envAlwaysTrue]

/-- Witness for C7 (amended) at `lo = 0`, `hi = 2`. -/
theorem C7_witness :
    Leaf.is_valid envAlwaysTrue (leafWithPairValidator "Between" 0 2 0) []
        = .ok true ∧
    Leaf.is_valid envAlwaysTrue (leafWithPairValidator "NotBetween" 0 2 2) []
        = .ok true :=
  ⟨(C7_boundary_values 0 2 (by decide)).1,
    (C7_boundary_values 0 2 (by decide)).2.2.2⟩

/-! ## C10 -/

/-- C10: every `Leaf` constraint setter checks its input completely before
assigning the slot, so whenever a setter raises (in particular raises
`TypeError`) the leaf is returned unchanged — no partially updated
constraint is ever stored. -/
theorem C10_setters_leave_leaf_unchanged_on_error (l : Leaf) (x : PyObj) :
    ((Leaf.set_valid_value_types l x).2.isSome →
      (Leaf.set_valid_value_types l x).1 = l) ∧
    ((Leaf.set_allowed_values l x).2.isSome →
      (Leaf.set_allowed_values l x).1 = l) ∧
    ((Leaf.set_forbidden_values l x).2.isSome →
      (Leaf.set_forbidden_values l x).1 = l) ∧
    ((Leaf.set_validators l x).2.isSome →
      (Leaf.set_validators l x).1 = l) ∧
    ((Leaf.set_validator_function l x).2.isSome →
      (Leaf.set_validator_function l x).1 = l) := by
  refine ⟨?_, ?_, ?_, ?_, ?_⟩ <;>
    cases x <;>
      simp only [Leaf.set_valid_value_types, Leaf.set_allowed_values,
        Leaf.set_forbidden_values, Leaf.set_validators,
        Leaf.set_validator_function, pyIterable, Bool.not_true,
        Bool.not_false] <;>
      (try split) <;> (try split) <;> simp

/-- Witness for C10: the non-iterable, non-function value `3` makes all five
setters raise `TypeError`, and each returns the blank leaf unchanged. -/
theorem C10_witness :
    ((Leaf.set_valid_value_types Leaf.blank (.int 3)).2.isSome = true ∧
      (Leaf.set_valid_value_types Leaf.blank (.int 3)).1 = Leaf.blank) ∧
    ((Leaf.set_allowed_values Leaf.blank (.int 3)).2.isSome = true ∧
      (Leaf.set_allowed_values Leaf.blank (.int 3)).1 = Leaf.blank) ∧
    ((Leaf.set_forbidden_values Leaf.blank (.int 3)).2.isSome = true ∧
      (Leaf.set_forbidden_values Leaf.blank (.int 3)).1 = Leaf.blank) ∧
    ((Leaf.set_validators Leaf.blank (.int 3)).2.isSome = true ∧
      (Leaf.set_validators Leaf.blank (.int 3)).1 = Leaf.blank) ∧
    ((Leaf.set_validator_function Leaf.blank (.int 3)).2.isSome = true ∧
      (Leaf.set_validator_function Leaf.blank (.int 3)).1 = Leaf.blank) :=
  ⟨⟨rfl, (C10_setters_leave_leaf_unchanged_on_error Leaf.blank (.int 3)).1
      rfl⟩,
    ⟨rfl, (C10_setters_leave_leaf_unchanged_on_error Leaf.blank
      (.int 3)).2.1 rfl⟩,
    ⟨rfl, (C10_setters_leave_leaf_unchanged_on_error Leaf.blank
      (.int 3)).2.2.1 rfl⟩,
    ⟨rfl, (C10_setters_leave_leaf_unchanged_on_error Leaf.blank
      (.int 3)).2.2.2.1 rfl⟩,
    ⟨rfl, (C10_setters_leave_leaf_unchanged_on_error Leaf.blank
      (.int 3)).2.2.2.2 rfl⟩⟩

/-! ## The dict-based Tree class

A settings-tree node is a Python dict with the optional keys `'value'`,
`'validator'`, `'children'` and the `'path'` key that `Tree.__init__` /
`_set_paths` write into every node.  `'validator'` holds an opaque callable;
it is modelled as an index into a `ValEnv` environment.  `Tree.__init__`
requires every reachable `'children'` entry to be a dict (otherwise
`_set_paths` raises during construction), which is why `children` is
modelled as an optional association list rather than an arbitrary value. -/

/-- A node of the settings tree. -/
inductive TNode where
  | mk (value : Option PyObj) (validator : Option Nat) (path : Str)
      (children : Option (List (Str × TNode)))

/-- The `'value'` entry of a node (`Option.none` = key absent). -/
def TNode.valueF : TNode → Option PyObj
  | .mk v _ _ _ => v

/-- The `'validator'` entry of a node. -/
def TNode.validatorF : TNode → Option Nat
  | .mk _ vd _ _ => vd

/-- The `'path'` entry of a node. -/
def TNode.pathF : TNode → Str
  | .mk _ _ p _ => p

/-- The `'children'` entry of a node. -/
def TNode.childrenF : TNode → Option (List (Str × TNode))
  | .mk _ _ _ c => c

/-- Replace the `'value'` entry of a node (`node['value'] = v`). -/
def TNode.withValue (t : TNode) (v : PyObj) : TNode :=
  match t with
  | .mk _ vd p c => .mk (some v) vd p c

/-- Environment interpreting stored `'validator'` callables: the callable
`vid` applied to `(value, settings, child)` where `settings` is the tree dict
the `Tree` object passes (`self._tree`) and `child` is the node itself.
`Option.none` models the call raising an exception. -/
abbrev ValEnv := Nat → PyObj → TNode → TNode → Option Bool

/-- Dict lookup among the children of a node. -/
def lookupChild (children : List (Str × TNode)) (k : Str) : Option TNode :=
  List.lookup k children

/-- Python `str.split('/')` (auxiliary: `acc` is the reversed current
piece). -/
def pySplitAux (sep : Char) : List Char → List Char → List Str
  | [], acc => [acc.reverse]
  | c :: rest, acc =>
    if c = sep then acc.reverse :: pySplitAux sep rest []
    else pySplitAux sep rest (c :: acc)

/-- Python `str.split('/')`: splitting on every separator occurrence,
keeping empty pieces (so `''.split('/') = ['']`). -/
def pySplit (sep : Char) (s : Str) : List Str :=
  pySplitAux sep s []

/-- The step function of the `new_comps` loop of `posixpath.normpath`: drop
empty and `'.'` components, append ordinary components, and let `'..'`
either append (relative prefix) or pop the previous component. -/
def normStep (slashes : Nat) (acc : List Str) (comp : Str) :
    List Str :=
  if comp = [] ∨ comp = ['.'] then acc
  else if comp ≠ ['.', '.'] ∨ (slashes = 0 ∧ acc = []) ∨
      (acc ≠ [] ∧ acc.getLast? = some ['.', '.']) then acc ++ [comp]
  else if acc ≠ [] then acc.dropLast
  else acc

/-- The number of leading separators `posixpath.normpath` preserves: two if
the path begins with exactly two, one if it begins with one or at least
three, zero otherwise. -/
def initialSlashes (path : Str) : Nat :=
  if path.take 1 = ['/'] then
    if path.take 2 = ['/', '/'] ∧ ¬(path.take 3 = ['/', '/', '/']) then 2
    else 1
  else 0

/-- Python `'/'.join(pieces)`. -/
def joinSep : List Str → Str
  | [] => []
  | [x] => x
  | x :: y :: rest => x ++ ['/'] ++ joinSep (y :: rest)

/-- `posixpath.normpath`: empty path becomes `'.'`; the preserved leading
separators are prepended to the normalised components joined by `'/'`; an
empty result becomes `'.'`. -/
def normpathL (path : Str) : Str :=
  if path = [] then ['.']
  else
    let res := List.replicate (initialSlashes path) '/' ++
      joinSep ((pySplit '/' path).foldl (normStep (initialSlashes path)) [])
    if res = [] then ['.'] else res

/-- `posixpath.join(a, b)` for two arguments. -/
def posixJoin (a b : Str) : Str :=
  if b.take 1 = ['/'] then b
  else if a = [] ∨ a.getLast? = some '/' then a ++ b
  else a ++ ['/'] ++ b

/-- The three result shapes of `_get_setting_by_path_node`: the node dict
itself, a setting's value, or the list of a parent's children names. -/
inductive GetRes where
  | node (t : TNode)
  | value (v : PyObj)
  | names (l : List Str)

/-- Removal of one leading separator (`if spath[0] == sep: spath =
spath[1:]`, source lines 1221–1222). -/
def stripLead (s : Str) : Str :=
  if s.head? = some '/' then s.tail else s

/-- The final dispatch of `_get_setting_by_path_node` (source lines
1224–1275) on the sanitised path `spath`: the position of the first
separator decides between final-component value/children-names access
(`find` returned `-1`), trailing-separator node access, and recursion into a
child (performed by `recurse`). -/
def resolveStep (recurse : TNode → Str → Except ErrK GetRes)
    (children : List (Str × TNode)) (spath : Str) : Except ErrK GetRes :=
  let idx := List.findIdx (fun c => c == '/') spath
  if idx = spath.length then
    match lookupChild children spath with
    | Option.none => .error .keyError
    | some child =>
      match child.valueF with
      | some v => .ok (.value v)
      | Option.none =>
        match child.childrenF with
        | some cs => .ok (.names (cs.map Prod.fst))
        | Option.none => .error .keyError
  else if idx + 1 = spath.length then
    match lookupChild children spath.dropLast with
    | Option.none => .error .keyError
    | some child => .ok (.node child)
  else
    match lookupChild children (spath.take idx) with
    | Option.none => .error .keyError
    | some child => recurse child (spath.drop idx)

/-- `Tree._get_setting_by_path_node(node, path)` (source lines 1166–1275).
The `fuel` argument models the Python call stack: every recursive call
consumes one unit and exhaustion models `RecursionError` (the source
documents that overly deep recursion exhausts the stack; the path `'//'`
even recurses without progress when an empty-named child exists).
Branches in source order: the literal `'/'` path returns the node; a
non-parent node raises `KeyError`; an empty path raises `IndexError` (from
`path[-1]`); otherwise the path is normalised, the trailing separator
restored if the original path had one, one leading separator stripped, and
`resolveStep` dispatches on the first remaining separator. -/
def getNode : Nat → TNode → Str → Except ErrK GetRes
  | 0, _, _ => .error .recursionError
  | Nat.succ fuel, node, path =>
    if path = ['/'] then .ok (.node node)
    else
      match node.childrenF with
      | Option.none => .error .keyError
      | some children =>
        if path = [] then .error .indexError
        else
          resolveStep (getNode fuel) children
            (stripLead (if path.getLast? = some '/' then
              normpathL path ++ ['/'] else normpathL path))

/-- `Tree.get_setting_by_path(path)`: delegation to
`_get_setting_by_path_node` on the root node. -/
def getSettingByPath (fuel : Nat) (root : TNode) (path : Str) :
    Except ErrK GetRes :=
  getNode fuel root path

/-! ### Path-normalisation lemmas -/

theorem pySplitAux_append_sep (sep : Char) :
    ∀ (l : Str) (acc : List Char),
      pySplitAux sep (l ++ [sep]) acc = pySplitAux sep l acc ++ [[]] := by
  intro l
  induction l with
  | nil => intro acc; simp [pySplitAux]
  | cons c rest ih =>
    intro acc
    by_cases hc : c = sep <;> simp [pySplitAux, hc, ih]

theorem pySplit_append_sep (sep : Char) (l : Str) :
    pySplit sep (l ++ [sep]) = pySplit sep l ++ [[]] :=
  pySplitAux_append_sep sep l []

theorem normStep_nil (k : Nat) (acc : List Str) : normStep k acc [] = acc := by
  simp [normStep]

theorem initialSlashes_append_sep :
    ∀ (p : Str), p ≠ [] → p.getLast? ≠ some '/' →
      initialSlashes (p ++ ['/']) = initialSlashes p
  | [], h, _ => absurd rfl h
  | [a], _, hlast => by
    have ha : a ≠ '/' := by simpa using hlast
    simp [initialSlashes, List.take, ha]
  | [a, b], _, hlast => by
    have hb : b ≠ '/' := by simpa using hlast
    simp [initialSlashes, List.take, hb]
  | a :: b :: c :: rest, _, _ => by
    simp [initialSlashes, List.take]

theorem normpathL_append_sep (p : Str) (hne : p ≠ [])
    (hlast : p.getLast? ≠ some '/') :
    normpathL (p ++ ['/']) = normpathL p := by
  have h1 : p ++ ['/'] ≠ [] := by simp
  rw [normpathL, normpathL, if_neg h1, if_neg hne,
    initialSlashes_append_sep p hne hlast, pySplit_append_sep,
    List.foldl_append]
  simp [normStep_nil]

theorem normpathL_ne_nil (p : Str) : normpathL p ≠ [] := by
  simp only [normpathL]
  split
  · simp
  · split
    · simp
    · next h => exact h

theorem initialSlashes_le_two (p : Str) : initialSlashes p ≤ 2 := by
  rw [initialSlashes]
  split
  · split <;> omega
  · omega

theorem pySplitAux_sepFree (sep : Char) :
    ∀ (s : Str) (acc : List Char), (∀ c ∈ acc, c ≠ sep) →
      ∀ piece ∈ pySplitAux sep s acc, ∀ c ∈ piece, c ≠ sep := by
  intro s
  induction s with
  | nil =>
    intro acc hacc piece hmem c hc
    simp [pySplitAux] at hmem
    subst hmem
    exact hacc c (List.mem_reverse.mp hc)
  | cons d rest ih =>
    intro acc hacc piece hmem c hc
    by_cases hd : d = sep
    · simp [pySplitAux, hd] at hmem
      rcases hmem with h | h
      · subst h; exact hacc c (List.mem_reverse.mp hc)
      · exact ih [] (by simp) piece h c hc
    · simp [pySplitAux, hd] at hmem
      refine ih (d :: acc) ?_ piece hmem c hc
      intro e he
      rcases List.mem_cons.mp he with h | h
      · subst h; exact hd
      · exact hacc e h

theorem pySplit_sepFree (sep : Char) (s : Str) :
    ∀ piece ∈ pySplit sep s, ∀ c ∈ piece, c ≠ sep :=
  pySplitAux_sepFree sep s [] (by simp)

theorem foldl_normStep_inv (k : Nat) :
    ∀ (comps : List Str) (acc : List Str),
      (∀ x ∈ acc, x ≠ [] ∧ ∀ c ∈ x, c ≠ '/') →
      (∀ x ∈ comps, ∀ c ∈ x, c ≠ '/') →
      ∀ x ∈ comps.foldl (normStep k) acc, x ≠ [] ∧ ∀ c ∈ x, c ≠ '/' := by
  intro comps
  induction comps with
  | nil => intro acc hacc _ x hx; exact hacc x hx
  | cons comp rest ih =>
    intro acc hacc hcomps
    rw [List.foldl_cons]
    refine ih (normStep k acc comp) ?_
      (fun x hx => hcomps x (List.mem_cons_of_mem _ hx))
    intro x hx
    rw [normStep] at hx
    by_cases hA : comp = [] ∨ comp = ['.']
    · rw [if_pos hA] at hx
      exact hacc x hx
    · rw [if_neg hA] at hx
      by_cases hB : comp ≠ ['.', '.'] ∨ (k = 0 ∧ acc = []) ∨
          (acc ≠ [] ∧ acc.getLast? = some ['.', '.'])
      · rw [if_pos hB] at hx
        rcases List.mem_append.mp hx with h | h
        · exact hacc x h
        · have hx' : x = comp := by simpa using h
          subst hx'
          exact ⟨fun hnil => hA (Or.inl hnil),
            hcomps x (List.mem_cons_self _ _)⟩
      · rw [if_neg hB] at hx
        by_cases hC : acc ≠ []
        · rw [if_pos hC] at hx
          exact hacc x ((List.dropLast_sublist acc).subset hx)
        · rw [if_neg hC] at hx
          exact hacc x hx

theorem joinSep_ne_nil (x : Str) (rest : List Str) (hx : x ≠ []) :
    joinSep (x :: rest) ≠ [] := by
  cases rest with
  | nil => simpa [joinSep]
  | cons y r => simp [joinSep]

theorem joinSep_getLast :
    ∀ (L : List Str), (∀ x ∈ L, x ≠ [] ∧ ∀ c ∈ x, c ≠ '/') →
      (joinSep L).getLast? ≠ some '/' := by
  intro L
  induction L with
  | nil => simp [joinSep]
  | cons x rest ih =>
    intro h
    cases rest with
    | nil =>
      simp only [joinSep]
      intro hlast
      obtain ⟨hx, hsep⟩ := h x (List.mem_cons_self _ _)
      have hmem : '/' ∈ x := by
        rw [List.getLast?_eq_get?] at hlast
        exact List.get?_mem hlast
      exact hsep '/' hmem rfl
    | cons y r =>
      have hy : joinSep (y :: r) ≠ [] :=
        joinSep_ne_nil y r (h y (by simp)).1
      have hrec := ih (fun z hz => h z (List.mem_cons_of_mem _ hz))
      rw [joinSep, List.append_assoc]
      cases hb : List.getLast? (joinSep (y :: r)) with
      | none => exact absurd (by simpa using hb) hy
      | some b =>
        rw [List.getLast?_append, List.getLast?_append, hb]
        intro hcon
        exact hrec ((Option.some_inj.mp hcon) ▸ hb)

theorem normpathL_getLast_sep (p : Str)
    (h : (normpathL p).getLast? = some '/') :
    normpathL p = ['/'] ∨ normpathL p = ['/', '/'] := by
  by_cases hp : p = []
  · subst hp; simp [normpathL] at h
  · rw [normpathL, if_neg hp] at h ⊢
    have hinv : ∀ x ∈ (pySplit '/' p).foldl
        (normStep (initialSlashes p)) [], x ≠ [] ∧ ∀ c ∈ x, c ≠ '/' :=
      foldl_normStep_inv _ _ [] (by simp) (pySplit_sepFree '/' p)
    generalize hNC : (pySplit '/' p).foldl (normStep (initialSlashes p)) []
      = NC at h hinv
    cases NC with
    | cons x rest =>
      have hjoin : joinSep (x :: rest) ≠ [] :=
        joinSep_ne_nil x rest (hinv x (List.mem_cons_self _ _)).1
      rw [if_neg (by simp [hjoin])] at h
      cases hb : List.getLast? (joinSep (x :: rest)) with
      | none => exact absurd (by simpa using hb) hjoin
      | some b =>
        rw [List.getLast?_append, hb] at h
        exact absurd ((Option.some_inj.mp h) ▸ hb)
          (joinSep_getLast _ hinv)
    | nil =>
      simp only [joinSep, List.append_nil] at h ⊢
      have h2 := initialSlashes_le_two p
      interval_cases h3 : initialSlashes p
      · simp at h
      · left; rfl
      · right; rfl

theorem findIdx_append_of_lt (f : Char → Bool) :
    ∀ (l l₂ : Str), List.findIdx f l < l.length →
      List.findIdx f (l ++ l₂) = List.findIdx f l := by
  intro l
  induction l with
  | nil => simp
  | cons a rest ih =>
    intro l₂ h
    by_cases hfa : f a
    · simp [List.findIdx_cons, hfa]
    · simp only [List.findIdx_cons, hfa, cond_false, List.length_cons] at h
      simp only [List.cons_append, List.findIdx_cons, hfa, cond_false]
      rw [ih l₂ (by omega)]

theorem findIdx_concat_of_eq (f : Char → Bool) :
    ∀ (l : Str) (c : Char), List.findIdx f l = l.length → f c = true →
      List.findIdx f (l ++ [c]) = l.length := by
  intro l
  induction l with
  | nil => intro c _ hc; simp [List.findIdx_cons, hc]
  | cons a rest ih =>
    intro c h hc
    by_cases hfa : f a
    · rw [List.findIdx_cons] at h
      simp [hfa] at h
    · simp only [List.findIdx_cons, hfa, cond_false, List.length_cons] at h
      simp only [List.cons_append, List.findIdx_cons, hfa, cond_false,
        List.length_cons]
      rw [ih c (by omega) hc]

theorem getLast?_drop_of_lt (l : Str) (i : Nat) (h : i < l.length) :
    (l.drop i).getLast? = l.getLast? := by
  rw [List.getLast?_eq_get?, List.getLast?_eq_get?, List.get?_drop,
    List.length_drop]
  congr 1
  omega

theorem stripLead_append (N M : Str) (h : N ≠ []) :
    stripLead (N ++ M) = stripLead N ++ M := by
  cases N with
  | nil => exact absurd rfl h
  | cons a t =>
    by_cases ha : a = '/' <;> simp [stripLead, ha]

/-- For any node and any fuel, resolving the path `'//'` raises: the
sanitised path is `'//'` again, whose first separator is at index 0 with more
path after it, so the resolution strips nothing and recurses (or raises
`KeyError` when no empty-named child exists). -/
theorem getNode_doubleslash :
    ∀ (fuel : Nat) (ch : TNode), ∃ e, getNode fuel ch ['/', '/'] = .error e := by
  intro fuel
  induction fuel with
  | zero => intro ch; exact ⟨.recursionError, rfl⟩
  | succ fuel ih =>
    intro ch
    rw [getNode]
    rw [if_neg (show ¬(['/', '/'] = ['/']) by decide)]
    cases hch : ch.childrenF with
    | none => exact ⟨.keyError, rfl⟩
    | some children =>
      show ∃ e, (match lookupChild children [] with
        | Option.none => Except.error ErrK.keyError
        | some child => getNode fuel child ['/', '/']) = .error e
      cases hlk : lookupChild children [] with
      | none => exact ⟨.keyError, rfl⟩
      | some child => exact ih child

/-- Unfolding equation for `getNode` on a parent node and a path other than
`'/'` and `''`. -/
theorem getNode_succ_of_children (fuel : Nat) (t : TNode) (path : Str)
    (children : List (Str × TNode)) (h1 : path ≠ ['/'])
    (hch : t.childrenF = some children) (h2 : path ≠ []) :
    getNode (fuel + 1) t path =
      resolveStep (getNode fuel) children
        (stripLead (if path.getLast? = some '/' then normpathL path ++ ['/']
          else normpathL path)) := by
  rw [getNode, if_neg h1, hch]
  exact if_neg h2

/-- Unfolding equation for `getNode` on a node with no `'children'` key. -/
theorem getNode_succ_no_children (fuel : Nat) (t : TNode) (path : Str)
    (h1 : path ≠ ['/']) (hch : t.childrenF = Option.none) :
    getNode (fuel + 1) t path = .error .keyError := by
  rw [getNode, if_neg h1, hch]

/-- The relation claim C4 asserts between the node object reached by a
trailing-separator get and the result of the get without the trailing
separator: the value if the node is a setting, the children names if it is a
parent (and, completing the match, `KeyError` if it is neither). -/
def plainGetMatches (res : Except ErrK GetRes) (n : TNode) : Prop :=
  match n.valueF with
  | some v => res = .ok (.value v)
  | Option.none =>
    match n.childrenF with
    | some cs => res = .ok (.names (cs.map Prod.fst))
    | Option.none => res = .error .keyError

/-- Core of claim C4: whenever the get of `p ++ '/'` (for `p` nonempty and
without a trailing separator) returns a node object `n`, the get of `p`
itself returns `n`'s value if `n` is a setting and `n`'s children names if
`n` is a parent. -/
theorem getNode_strip_sep :
    ∀ (fuel : Nat) (t : TNode) (p : Str) (n : TNode),
      p ≠ [] → p.getLast? ≠ some '/' →
      getNode fuel t (p ++ ['/']) = .ok (.node n) →
      plainGetMatches (getNode fuel t p) n := by
  intro fuel
  induction fuel with
  | zero =>
    intro t p n _ _ hget
    exact absurd hget (by simp [getNode])
  | succ fuel ih =>
    intro t p n hne hlast hget
    have hp1 : p ++ ['/'] ≠ ['/'] := by
      intro hc
      have hlen := congrArg List.length hc
      simp at hlen
      exact hne hlen
    have hp2 : p ≠ ['/'] := fun hc => hlast (by rw [hc]; rfl)
    cases hch : t.childrenF with
    | none =>
      rw [getNode_succ_no_children fuel t _ hp1 hch] at hget
      exact absurd hget (by simp)
    | some children =>
      rw [getNode_succ_of_children fuel t _ children hp1 hch (by simp)]
        at hget
      rw [getNode_succ_of_children fuel t p children hp2 hch hne]
      rw [if_pos (List.getLast?_concat ..),
        normpathL_append_sep p hne hlast] at hget
      rw [if_neg hlast]
      have hNnil : normpathL p ≠ [] := normpathL_ne_nil p
      rw [stripLead_append (normpathL p) ['/'] hNnil] at hget
      generalize hS : stripLead (normpathL p) = S at hget ⊢
      -- if the sanitised relative path ends in a separator it is exactly '/'
      have hSmax : S.getLast? = some '/' → S = ['/'] := by
        intro hSl
        rw [← hS, stripLead] at hSl
        by_cases hh : (normpathL p).head? = some '/'
        · rw [if_pos hh] at hSl
          have htne : (normpathL p).tail ≠ [] := by
            intro h0
            rw [h0] at hSl
            simp at hSl
          have hNl : (normpathL p).getLast? = some '/' := by
            cases hNp : normpathL p with
            | nil => exact absurd hNp hNnil
            | cons a tl =>
              rw [hNp] at hSl htne
              cases tl with
              | nil => exact absurd rfl htne
              | cons b tl2 => rw [List.getLast?_cons_cons]; exact hSl
          rcases normpathL_getLast_sep p hNl with h1 | h1
          · rw [h1] at htne; simp at htne
          · rw [← hS, stripLead, if_pos hh, h1]
            rfl
        · rw [if_neg hh] at hSl
          rcases normpathL_getLast_sep p hSl with h1 | h1 <;>
            · rw [h1] at hh; simp at hh
      rw [resolveStep] at hget
      rw [resolveStep]
      by_cases hA : List.findIdx (fun c => c == '/') S = S.length
      · -- no separator in the sanitised relative path
        have hidxP : List.findIdx (fun c => c == '/') (S ++ ['/'])
            = S.length := findIdx_concat_of_eq _ S '/' hA (by simp)
        rw [hidxP] at hget
        rw [if_neg (show ¬(S.length = (S ++ ['/']).length) by
          simp [List.length_append])] at hget
        rw [if_pos (show S.length + 1 = (S ++ ['/']).length by
          simp [List.length_append])] at hget
        rw [List.dropLast_concat] at hget
        rw [if_pos hA]
        cases hlk : lookupChild children S with
        | none =>
          rw [hlk] at hget
          exact absurd hget (by simp)
        | some child =>
          rw [hlk] at hget
          have hget2 : Except.ok (GetRes.node child)
              = Except.ok (GetRes.node n) := hget
          have hcn : child = n := GetRes.node.inj (Except.ok.inj hget2)
          subst hcn
          cases hv : child.valueF with
          | some v => simp [plainGetMatches, hv]
          | none =>
            cases hc2 : child.childrenF with
            | some cs => simp [plainGetMatches, hv, hc2]
            | none => simp [plainGetMatches, hv, hc2]
      · have hlt : List.findIdx (fun c => c == '/') S < S.length :=
          Nat.lt_of_le_of_ne (List.findIdx_le_length _) hA
        have hidxP : List.findIdx (fun c => c == '/') (S ++ ['/'])
            = List.findIdx (fun c => c == '/') S :=
          findIdx_append_of_lt _ S ['/'] hlt
        have hgetelem :
            S[List.findIdx (fun c => c == '/') S] = '/' := by
          have := List.findIdx_getElem (w := hlt)
          simpa using this
        by_cases hB1 : List.findIdx (fun c => c == '/') S + 1 = S.length
        · -- the separator is the last character: S must be exactly '/'
          have hSlast : S.getLast? = some '/' := by
            rw [List.getLast?_eq_getElem?]
            have hidx1 : S.length - 1 =
                List.findIdx (fun c => c == '/') S := by omega
            rw [hidx1, List.getElem?_eq_getElem hlt, hgetelem]
          have hS1 : S = ['/'] := hSmax hSlast
          rw [hS1] at hget
          have hget' : (match lookupChild children [] with
              | Option.none => Except.error ErrK.keyError
              | some child => getNode fuel child ['/', '/'])
              = Except.ok (GetRes.node n) := hget
          cases hlk : lookupChild children [] with
          | none =>
            rw [hlk] at hget'
            exact absurd hget' (by simp)
          | some child =>
            rw [hlk] at hget'
            have hget'' : getNode fuel child ['/', '/']
                = Except.ok (GetRes.node n) := hget'
            obtain ⟨e, he⟩ := getNode_doubleslash fuel child
            rw [he] at hget''
            exact absurd hget'' (by simp)
        · -- the separator is in the middle: recurse and use the IH
          have hlt2 : List.findIdx (fun c => c == '/') S + 1 < S.length := by
            omega
          rw [hidxP] at hget
          rw [if_neg (show ¬(List.findIdx (fun c => c == '/') S
              = (S ++ ['/']).length) by
            simp only [List.length_append, List.length_singleton]
            omega)] at hget
          rw [if_neg (show ¬(List.findIdx (fun c => c == '/') S + 1
              = (S ++ ['/']).length) by
            simp only [List.length_append, List.length_singleton]
            omega)] at hget
          rw [List.take_append_of_le_length (le_of_lt hlt)] at hget
          rw [List.drop_append_of_le_length (le_of_lt hlt)] at hget
          rw [if_neg hA, if_neg hB1]
          cases hlk : lookupChild children
              (S.take (List.findIdx (fun c => c == '/') S)) with
          | none =>
            rw [hlk] at hget
            exact absurd hget (by simp)
          | some child =>
            rw [hlk] at hget
            have hget2 : getNode fuel child
                (S.drop (List.findIdx (fun c => c == '/') S) ++ ['/'])
                = Except.ok (GetRes.node n) := hget
            refine ih child (S.drop (List.findIdx (fun c => c == '/') S)) n
              ?_ ?_ hget2
            · intro h0
              have := congrArg List.length h0
              simp [List.length_drop] at this
              omega
            · rw [getLast?_drop_of_lt S _ hlt]
              intro hSl
              have hS1 := hSmax hSl
              rw [hS1] at hlt2
              simp at hlt2

/-! ## Concrete trees used in the Tree theorems -/

/-- The setting node at `/a` of the example tree: value `1`. -/
def exLeafA : TNode := .mk (some (.int 1)) (some 0) "/a".toList Option.none

/-- The setting node at `/b/c` of the example tree: value `2`. -/
def exLeafC : TNode :=
  .mk (some (.int 2)) (some 0) "/b/c".toList Option.none

/-- The parent node at `/b` of the example tree. -/
def exParentB : TNode :=
  .mk Option.none Option.none "/b".toList (some [("c".toList, exLeafC)])

/-- The example tree `{'a': setting 1, 'b': {'c': setting 2}}` (with the
`path` fields `Tree.__init__` writes). -/
def exRoot : TNode :=
  .mk Option.none Option.none "/".toList
    (some [("a".toList, exLeafA), ("b".toList, exParentB)])

/-! ## C4 -/

/-- C4: for every tree and existing child: a get whose path ends in a
trailing separator returns the child node object itself (the hypothesis
`hget`), and then the get of the same path without the trailing separator
returns the child's value if the child is a setting and the list of its
children's names if the child is a parent. -/
theorem C4_trailing_separator_semantics (fuel : Nat) (t : TNode) (p : Str)
    (n : TNode) (hne : p ≠ []) (hlast : p.getLast? ≠ some '/')
    (hget : getSettingByPath fuel t (p ++ ['/']) = .ok (.node n)) :
    (∀ v, n.valueF = some v → n.childrenF = Option.none →
      getSettingByPath fuel t p = .ok (.value v)) ∧
    (∀ cs, n.valueF = Option.none → n.childrenF = some cs →
      getSettingByPath fuel t p = .ok (.names (cs.map Prod.fst))) := by
  have h := getNode_strip_sep fuel t p n hne hlast hget
  constructor
  · intro v hv _
    simp only [plainGetMatches, hv] at h
    exact h
  · intro cs hv hcs
    simp only [plainGetMatches, hv, hcs] at h
    exact h

/-- Witness for C4 on the example tree: `/a/` returns the setting node,
`/a` its value; `/b/` returns the parent node, `/b` its children names. -/
theorem C4_witness :
    getSettingByPath 9 exRoot ("/a".toList ++ ['/']) = .ok (.node exLeafA) ∧
    getSettingByPath 9 exRoot "/a".toList = .ok (.value (.int 1)) ∧
    getSettingByPath 9 exRoot "/b".toList = .ok (.names ["c".toList]) :=
  ⟨rfl,
    (C4_trailing_separator_semantics 9 exRoot "/a".toList exLeafA
      (by decide) (by decide) rfl).1 (.int 1) rfl rfl,
    (C4_trailing_separator_semantics 9 exRoot "/b".toList exParentB
      (by decide) (by decide) rfl).2 [("c".toList, exLeafC)] rfl rfl⟩

/-! ## C5 -/

/-- C5: the claim states that a get with the path `'//'` always returns the
root node object itself, never raising (the repository's own test
`test_get_root` asserts `tree == tree['//']`).  On the code, `normpath`
preserves `'//'`, the trailing separator is re-added and one leading
separator stripped, leaving `'//'` again, whose first separator is at index
0 with more path after it; resolution therefore looks up a child named `''`
(and loops when one exists), raising `KeyError` on the example tree and an
exception on every tree at every recursion depth — never returning the
root. -/
theorem C5_doubleslash_raises :
    getSettingByPath 9 exRoot "//".toList = .error .keyError ∧
    ∀ (fuel : Nat) (t : TNode), ∃ e,
      getSettingByPath fuel t "//".toList = .error e :=
  ⟨rfl, fun fuel t => getNode_doubleslash fuel t⟩

/-! ## Value extraction, staging and validation -/

/-- Rebuild a node with the given children list (used to model the in-place
update of the `'children'` dict entries). -/
def TNode.withChildren (t : TNode) (cs : List (Str × TNode)) : TNode :=
  match t with
  | .mk v vd p _ => .mk v vd p (some cs)

mutual

/-- `Tree._extract_values_node(node)` (source lines 1277–1315): the dict of
extracted values of a parent node's children — a nested dict for a parent
child, the child's `'value'` for a setting child (the source raises
`KeyError` when the `'value'` key is missing; that unreachable case is
modelled as `None`).  On a node without a `'children'` key the source
raises `KeyError`; the branch is unreachable from `extract_values` on a
constructed tree and is modelled as `[]`. -/
def extractValuesNode : TNode → List (Str × PyObj)
  | .mk _ _ _ (some cs) => extractValuesList cs
  | .mk _ _ _ Option.none => []

/-- The children loop of `_extract_values_node`. -/
def extractValuesList : List (Str × TNode) → List (Str × PyObj)
  | [] => []
  | (k, v) :: rest =>
    (k, match v.childrenF with
        | some _ => PyObj.dict (extractValuesNode v)
        | Option.none => v.valueF.getD PyObj.none) :: extractValuesList rest

end

/-- The entry `_extract_values_node` produces for one child. -/
def extractEntry (v : TNode) : PyObj :=
  match v.childrenF with
  | some _ => PyObj.dict (extractValuesNode v)
  | Option.none => v.valueF.getD PyObj.none

/-- `extractValuesList` unfolds through `extractEntry`. -/
theorem extractValuesList_cons (k : Str) (v : TNode)
    (rest : List (Str × TNode)) :
    extractValuesList ((k, v) :: rest)
      = (k, extractEntry v) :: extractValuesList rest := rfl

mutual

/-- `Tree._set_values_node(node, values, force=True)` (source lines
1317–1373).  The `force` parameter is `True` at both call sites in
`set_values` (the only callers) and is passed through unchanged in the
recursion, so the validator-consulting branch of the source is dead and the
embedding models the `force=True` behaviour: each child named in `values` is
updated — a parent recursively when the supplied entry is a dict, a setting
unconditionally overwritten with the supplied entry.  (On a node without a
`'children'` key the source raises `KeyError`; unreachable for constructed
trees, modelled as the identity.) -/
def setValuesNode : TNode → List (Str × PyObj) → TNode
  | .mk v vd p (some cs), values => .mk v vd p (some (setValuesList values cs))
  | .mk v vd p Option.none, _ => .mk v vd p Option.none

/-- The children loop of `_set_values_node`: children absent from `values`
are skipped; a parent child recurses only when its entry is a dict; a
setting child's `'value'` is overwritten with the entry. -/
def setValuesList (values : List (Str × PyObj)) :
    List (Str × TNode) → List (Str × TNode)
  | [] => []
  | (k, sv) :: rest =>
    (match List.lookup k values with
     | Option.none => (k, sv)
     | some w =>
       match sv.childrenF with
       | some _ =>
         match w with
         | .dict d => (k, setValuesNode sv d)
         | _ => (k, sv)
       | Option.none => (k, sv.withValue w)) :: setValuesList values rest

end

mutual

/-- `Tree._find_invalids_node` on a node argument (source lines 1375–1450).
`live` is the tree the validators receive as their second argument: the
method passes `self._tree` — the *live* tree — even when `node` is the
staged copy.  A parent collects its children's invalid paths in order; a
non-parent must have `'value'` and `'validator'` keys and must satisfy its
validator, any exception counting as invalid.  (The source's branches for a
non-dict `'children'` container and for children missing `'path'` cannot
arise in the embedding, where children entries are always nodes carrying a
path.) -/
def findInvalidsNode (env : ValEnv) (live : TNode) : TNode → List Str
  | .mk _ _ _ (some cs) => findInvalidsList env live cs
  | .mk (some val) (some vid) p Option.none =>
    match env vid val live (.mk (some val) (some vid) p Option.none) with
    | some true => []
    | some false => [p]
    | Option.none => [p]
  | .mk _ _ p Option.none => [p]


/-- The children loop of `_find_invalids_node`. -/
def findInvalidsList (env : ValEnv) (live : TNode) :
    List (Str × TNode) → List Str
  | [] => []
  | (_, v) :: rest =>
    findInvalidsNode env live v ++ findInvalidsList env live rest

end

/-- `Tree.set_values(values, force)` (source lines 682–752): stage the
values onto a deep copy of the live tree, compute the validity of the copy
(the validators receiving the live tree `t` as their settings argument),
and commit the same staged values to the live tree when the copy is valid
or `force` is set; the result pairs the returned validity with the live
tree after the call. -/
def setValues (env : ValEnv) (t : TNode) (values : List (Str × PyObj))
    (force : Bool) : Bool × TNode :=
  let treeCopy := setValuesNode t values
  let invalids := findInvalidsNode env t treeCopy
  let validity := invalids.isEmpty
  if validity || force then (validity, setValuesNode t values)
  else (validity, t)

/-! ## C2 -/

/-- C2: if `set_values(values, force=False)` returns `False`, the live tree
is untouched — every leaf value (indeed the whole tree object) after the
call equals its value before the call. -/
theorem C2_set_values_atomic (env : ValEnv) (t : TNode)
    (values : List (Str × PyObj)) (r : TNode)
    (h : setValues env t values false = (false, r)) : r = t := by
  simp only [setValues, Bool.or_false] at h
  by_cases hv : (findInvalidsNode env t (setValuesNode t values)).isEmpty
  · rw [if_pos hv] at h
    rw [hv] at h
    exact absurd (congrArg Prod.fst h) (by simp)
  · rw [if_neg (by simpa using hv)] at h
    exact (Prod.mk.injEq .. ▸ h).2.symm

/-- An environment for the C2 witness and the C3 exhibit: validator `0`
compares the checked value with the live tree's `/y` value (the
cross-referencing custom predicate of the scenario), validator `1` accepts
everything, and validator `2` rejects everything. -/
def exEnvCross : ValEnv := fun vid val live _node =>
  if vid = 0 then
    some (PyObj.beq val
      (match live.childrenF with
       | some cs =>
         match List.lookup "y".toList cs with
         | some ynode => ynode.valueF.getD PyObj.none
         | Option.none => PyObj.none
       | Option.none => PyObj.none))
  else if vid = 1 then some true
  else some false

/-- A tree whose setting `/x` (value `3`) is validated by the rejecting
validator `2`. -/
def exTreeReject : TNode :=
  .mk Option.none Option.none "/".toList
    (some [("x".toList, .mk (some (.int 3)) (some 2) "/x".toList
      Option.none)])

/-- Witness for C2: staging `x := 5` on `exTreeReject` is rejected (the
validator refuses everything), `set_values` returns `False` and the live
tree is unchanged. -/
theorem C2_witness :
    setValues exEnvCross exTreeReject [("x".toList, .int 5)] false
      = (false, exTreeReject) := by
  have h : setValues exEnvCross exTreeReject [("x".toList, .int 5)] false
      = (false, (setValues exEnvCross exTreeReject
        [("x".toList, .int 5)] false).2) := rfl
  exact h.trans (by
    rw [C2_set_values_atomic exEnvCross exTreeReject
      [("x".toList, .int 5)] _ h])

/-! ## C3 -/

/-- The tree of the C3 scenario: setting `/x` (value `1`) whose validator
`0` compares it with the live `/y` value, and setting `/y` (value `1`)
with the always-true validator `1`. -/
def exTreeCross : TNode :=
  .mk Option.none Option.none "/".toList
    (some [("x".toList, .mk (some (.int 1)) (some 0) "/x".toList
        Option.none),
      ("y".toList, .mk (some (.int 1)) (some 1) "/y".toList Option.none)])

/-- `exTreeCross` after committing `y := 2`. -/
def exTreeCrossAfter : TNode :=
  .mk Option.none Option.none "/".toList
    (some [("x".toList, .mk (some (.int 1)) (some 0) "/x".toList
        Option.none),
      ("y".toList, .mk (some (.int 2)) (some 1) "/y".toList Option.none)])

/-- C3: the claim states that the end-of-`set_values` validation evaluates
every validator against the staged (new) values of all leaves, so that
changing only `/y` can flip `/x`'s validity in the returned result.  The
code instead passes the *live* (pre-call) tree to every validator
(`self._tree` in `_find_invalids_node`, source line 1445), so `/x`'s
cross-referencing validator still sees the old `/y = 1`: `set_values({'y':
2})` returns `True` and commits — although the committed tree is in fact
invalid, as the second conjunct shows by running the live-tree validity
check (`find_invalids`) afterwards, which reports `/x`.  This contradicts
the claim and the code's own docstring ("setting one particular setting can
make other ones invalid, which can only be seen at the end"). -/
theorem C3_validation_sees_stale_tree :
    setValues exEnvCross exTreeCross [("y".toList, .int 2)] false
      = (true, exTreeCrossAfter) ∧
    findInvalidsNode exEnvCross exTreeCrossAfter exTreeCrossAfter
      = ["/x".toList] :=
  ⟨rfl, rfl⟩

/-! ## C8 -/

/-- No duplicates among a list of child names (the Python dict-key
invariant). -/
def keysNodupL : List Str → Bool
  | [] => true
  | k :: rest => !(rest.contains k) && keysNodupL rest

mutual

/-- The Python dict-key invariant, recursively: at every level the children
names are distinct (duplicate keys cannot exist in a Python dict). -/
def nodupKeys : TNode → Bool
  | .mk _ _ _ (some cs) => keysNodupL (cs.map Prod.fst) && nodupKeysList cs
  | .mk _ _ _ Option.none => true

/-- `nodupKeys` over a children list. -/
def nodupKeysList : List (Str × TNode) → Bool
  | [] => true
  | (_, v) :: rest => nodupKeys v && nodupKeysList rest

end

mutual

/-- Every setting node of the tree has a `'value'` key. -/
def leavesOK : TNode → Bool
  | .mk _ _ _ (some cs) => leavesOKList cs
  | .mk v _ _ Option.none => v.isSome

/-- `leavesOK` over a children list. -/
def leavesOKList : List (Str × TNode) → Bool
  | [] => true
  | (_, v) :: rest => leavesOK v && leavesOKList rest

end

/-- Looking a child's name up in the extracted value dict of a children
list with distinct names yields that child's extracted entry. -/
theorem lookup_extractList :
    ∀ (cs : List (Str × TNode)) (k : Str) (sv : TNode),
      keysNodupL (cs.map Prod.fst) = true → (k, sv) ∈ cs →
      List.lookup k (extractValuesList cs) = some (extractEntry sv) := by
  intro cs
  induction cs with
  | nil => intro k sv _ hmem; exact absurd hmem (List.not_mem_nil _)
  | cons hd rest ih =>
    intro k sv hnd hmem
    obtain ⟨k₁, v₁⟩ := hd
    rw [extractValuesList_cons]
    rw [List.map_cons, keysNodupL] at hnd
    obtain ⟨h1, h2⟩ := Bool.and_eq_true_iff.mp hnd
    rcases List.mem_cons.mp hmem with heq | hmem'
    · obtain ⟨hk, hv⟩ := Prod.mk.injEq .. ▸ heq
      subst hk
      subst hv
      simp [List.lookup]
    · have hk : k ≠ k₁ := by
        intro h
        subst h
        have hmem'' : k ∈ rest.map Prod.fst :=
          List.mem_map_of_mem Prod.fst hmem'
        have hcont : (rest.map Prod.fst).contains k = true :=
          List.elem_eq_true_of_mem hmem''
        rw [Bool.not_eq_true'] at h1
        rw [hcont] at h1
        exact absurd h1 (by simp)
      have hbeq : (k == k₁) = false := beq_eq_false_iff_ne.mpr hk
      simp only [List.lookup, hbeq]
      exact ih k sv h2 hmem'

/-- A tree whose live-tree validity check reports no invalid paths has a
`'value'` key on every setting node. -/
theorem findInvalids_nil_leavesOK (env : ValEnv) (live : TNode) :
    ∀ t, findInvalidsNode env live t = [] → leavesOK t = true := by
  refine fun t => findInvalidsNode.induct env live
    (motive_1 := fun t =>
      findInvalidsNode env live t = [] → leavesOK t = true)
    (motive_2 := fun cs =>
      findInvalidsList env live cs = [] → leavesOKList cs = true)
    ?_ ?_ ?_ ?_ ?_ ?_ ?_ t
  · intro v vd p cs ih h
    rw [findInvalidsNode] at h
    rw [leavesOK]
    exact ih h
  · intro val vid p _ _
    rfl
  · intro val vid p henv h
    rw [findInvalidsNode, henv] at h
    exact absurd h (by simp)
  · intro val vid p henv h
    rw [findInvalidsNode, henv] at h
    exact absurd h (by simp)
  · intro v vd p hmismatch h
    cases v with
    | some val =>
      cases vd with
      | some vid => exact (hmismatch val vid rfl rfl).elim
      | none =>
        have h' : ([p] : List Str) = [] := h
        exact absurd h' (by simp)
    | none =>
      cases vd with
      | some vid =>
        have h' : ([p] : List Str) = [] := h
        exact absurd h' (by simp)
      | none =>
        have h' : ([p] : List Str) = [] := h
        exact absurd h' (by simp)
  · intro _
    rfl
  · intro k v rest ih1 ih2 h
    rw [findInvalidsList] at h
    obtain ⟨ha, hb⟩ := List.append_eq_nil.mp h
    rw [leavesOKList, ih1 ha, ih2 hb]
    rfl

/-- Staging a tree's own extracted values back onto it (with `force=True`,
as `set_values` does internally) reproduces the tree exactly, provided the
children names are distinct at every level and every setting node has a
`'value'` key. -/
theorem setValuesNode_extract_id (t : TNode) (hnd : nodupKeys t = true)
    (hlv : leavesOK t = true) :
    setValuesNode t (extractValuesNode t) = t := by
  refine setValuesNode.induct
    (motive_1 := fun t values =>
      nodupKeys t = true → leavesOK t = true →
      values = extractValuesNode t → setValuesNode t values = t)
    (motive_2 := fun values cs =>
      nodupKeysList cs = true → leavesOKList cs = true →
      (∀ k sv, (k, sv) ∈ cs →
        List.lookup k values = some (extractEntry sv)) →
      setValuesList values cs = cs)
    ?_ ?_ ?_ ?_ t (extractValuesNode t) hnd hlv rfl
  · intro v vd p cs values ih hnd' hlv' hval
    rw [nodupKeys] at hnd'
    obtain ⟨hk, hcs⟩ := Bool.and_eq_true_iff.mp hnd'
    rw [leavesOK] at hlv'
    rw [extractValuesNode] at hval
    subst hval
    rw [setValuesNode, ih hcs hlv'
      (fun k sv hmem => lookup_extractList cs k sv hk hmem)]
  · intro v vd p x _ _ _
    rw [setValuesNode]
  · intro values _ _ _
    rfl
  · intro values k v rest ih1 ih2 hnd' hlv' hlook
    rw [nodupKeysList] at hnd'
    obtain ⟨hv1, hv2⟩ := Bool.and_eq_true_iff.mp hnd'
    rw [leavesOKList] at hlv'
    obtain ⟨hl1, hl2⟩ := Bool.and_eq_true_iff.mp hlv'
    rw [setValuesList]
    refine congrArg₂ List.cons ?_
      (ih2 hv2 hl2
        (fun k' sv hmem => hlook k' sv (List.mem_cons_of_mem _ hmem)))
    rw [hlook k v (List.mem_cons_self _ _)]
    cases v with
    | mk a b c d =>
      cases d with
      | some cs' =>
        show (k, setValuesNode (TNode.mk a b c (some cs'))
          (extractValuesNode (TNode.mk a b c (some cs'))))
          = (k, TNode.mk a b c (some cs'))
        rw [ih1 (extractValuesNode (TNode.mk a b c (some cs'))) hv1 hl1 rfl]
      | none =>
        show (k, (TNode.mk a b c Option.none).withValue
            ((TNode.mk a b c Option.none).valueF.getD PyObj.none))
          = (k, TNode.mk a b c Option.none)
        have hl1' : a.isSome = true := hl1
        cases a with
        | some w => rfl
        | none => exact absurd hl1' (by simp)

/-- C8: on an already-valid tree (distinct children names as Python dicts
guarantee, and no invalid paths reported by the live-tree validity check),
`set_values(extract_values(), force=False)` returns `True` and leaves the
live tree — every leaf value and hence its overall validity — unchanged. -/
theorem C8_roundtrip_extract_set (env : ValEnv) (t : TNode)
    (hnd : nodupKeys t = true)
    (hvalid : findInvalidsNode env t t = []) :
    setValues env t (extractValuesNode t) false = (true, t) := by
  have hlv := findInvalids_nil_leavesOK env t t hvalid
  have hrt := setValuesNode_extract_id t hnd hlv
  simp only [setValues, hrt, hvalid]
  rfl

/-- Witness for C8: the two-setting tree `exTreeCross` is valid under
`exEnvCross` (its cross-referencing validator holds since `x = y = 1`),
and the round trip returns `True` with the tree unchanged. -/
theorem C8_witness :
    setValues exEnvCross exTreeCross (extractValuesNode exTreeCross) false
      = (true, exTreeCross) :=
  C8_roundtrip_extract_set exEnvCross exTreeCross rfl rfl

/-! ## Python equality on nodes and get results (for `diff`) -/

/-- `==` as a symmetric Boolean relation on any lawfully-compared type. -/
theorem beq_symm_of_lawful {α : Type} [BEq α] [LawfulBEq α] (a b : α) :
    (a == b) = (b == a) := by
  by_cases h : a = b
  · subst h; rfl
  · rw [beq_eq_false_iff_ne.mpr h, beq_eq_false_iff_ne.mpr (Ne.symm h)]

/-- Python `==` on optional `'value'` entries. -/
def optPyEq : Option PyObj → Option PyObj → Bool
  | Option.none, Option.none => true
  | some a, some b => PyObj.beq a b
  | _, _ => false

mutual

/-- Python `==` on node dicts, comparing the four entries (the `'validator'`
functions by identity, as Python function objects compare; children
entry-wise — Python dict `==` ignores entry order, but every dict the source
builds for a given tree shape lists children in insertion order, so
entry-wise comparison agrees on the values `diff` actually compares). -/
def TNode.beq : TNode → TNode → Bool
  | .mk v₁ vd₁ p₁ c₁, .mk v₂ vd₂ p₂ c₂ =>
    optPyEq v₁ v₂ && vd₁ == vd₂ && p₁ == p₂ && childrenOptBeq c₁ c₂

/-- Python `==` on optional `'children'` entries. -/
def childrenOptBeq :
    Option (List (Str × TNode)) → Option (List (Str × TNode)) → Bool
  | Option.none, Option.none => true
  | some a, some b => childrenBeq a b
  | _, _ => false

/-- Entry-wise Python `==` on children dicts. -/
def childrenBeq : List (Str × TNode) → List (Str × TNode) → Bool
  | [], [] => true
  | (k₁, v₁) :: r₁, (k₂, v₂) :: r₂ =>
    k₁ == k₂ && TNode.beq v₁ v₂ && childrenBeq r₁ r₂
  | _, _ => false

end

/-- Python `==` on get results (a node dict, a value, or a name list). -/
def GetRes.beq : GetRes → GetRes → Bool
  | .node a, .node b => TNode.beq a b
  | .value a, .value b => PyObj.beq a b
  | .names a, .names b => a == b
  | _, _ => false

/-- The comparison `diff` performs between the two gets of a common setting
path.  For settings present in both trees the gets return values, so the
error cases are unreachable; they are compared symmetrically by kind. -/
def exceptResBeq : Except ErrK GetRes → Except ErrK GetRes → Bool
  | .ok a, .ok b => GetRes.beq a b
  | .error e₁, .error e₂ => e₁ == e₂
  | _, _ => false

theorem pyObjBeq_comm : ∀ (a b : PyObj), PyObj.beq a b = PyObj.beq b a := by
  refine fun a b => PyObj.beq.induct
    (motive_1 := fun a b => PyObj.beq a b = PyObj.beq b a)
    (motive_2 := fun es fs => PyObj.beqEntries es fs = PyObj.beqEntries fs es)
    (motive_3 := fun as bs => PyObj.beqList as bs = PyObj.beqList bs as)
    ?_ ?_ ?_ ?_ ?_ ?_ ?_ ?_ ?_ ?_ ?_ ?_ ?_ ?_ ?_ ?_ ?_ a b
  · intro a b
    exact beq_symm_of_lawful a b
  · intro a b
    exact beq_symm_of_lawful ((a : Rat)) b
  · intro a b
    exact beq_symm_of_lawful a ((b : Rat))
  · intro a b
    exact beq_symm_of_lawful a b
  · rfl
  · intro a b
    exact beq_symm_of_lawful a b
  · intro a b
    exact beq_symm_of_lawful a b
  · intro a b
    exact beq_symm_of_lawful a b
  · intro a b ih
    show PyObj.beqList a b = PyObj.beqList b a
    exact ih
  · intro a b ih
    show PyObj.beqEntries a b = PyObj.beqEntries b a
    exact ih
  · intro t x h1 h2 h3 h4 h5 h6 h7 h8 h9 h10
    cases t <;> cases x <;>
      first
        | rfl
        | exact (h1 _ _ rfl rfl).elim
        | exact (h2 _ _ rfl rfl).elim
        | exact (h3 _ _ rfl rfl).elim
        | exact (h4 _ _ rfl rfl).elim
        | exact (h5 rfl rfl).elim
        | exact (h6 _ _ rfl rfl).elim
        | exact (h7 _ _ rfl rfl).elim
        | exact (h8 _ _ rfl rfl).elim
        | exact (h9 _ _ rfl rfl).elim
        | exact (h10 _ _ rfl rfl).elim
  · rfl
  · intro a as b bs ih1 ih2
    show (PyObj.beq a b && PyObj.beqList as bs)
      = (PyObj.beq b a && PyObj.beqList bs as)
    rw [ih1, ih2]
  · intro t x h1 h2
    cases t <;> cases x <;>
      first
        | rfl
        | exact (h1 rfl rfl).elim
        | exact (h2 _ _ _ _ rfl rfl).elim
  · rfl
  · intro k₁ v₁ as k₂ v₂ bs ih1 ih2
    show (k₁ == k₂ && PyObj.beq v₁ v₂ && PyObj.beqEntries as bs)
      = (k₂ == k₁ && PyObj.beq v₂ v₁ && PyObj.beqEntries bs as)
    rw [ih1, ih2, beq_symm_of_lawful k₁ k₂]
  · intro t x h1 h2
    cases t <;> cases x <;>
      first
        | rfl
        | exact (h1 rfl rfl).elim
        | exact (h2 _ _ _ _ _ _ rfl rfl).elim

theorem optPyEq_comm (a b : Option PyObj) : optPyEq a b = optPyEq b a := by
  cases a <;> cases b <;> first | rfl | exact pyObjBeq_comm _ _

theorem tnodeBeq_comm : ∀ (a b : TNode), TNode.beq a b = TNode.beq b a := by
  refine fun a b => TNode.beq.induct
    (motive_1 := fun a b => TNode.beq a b = TNode.beq b a)
    (motive_2 := fun a b => childrenOptBeq a b = childrenOptBeq b a)
    (motive_3 := fun a b => childrenBeq a b = childrenBeq b a)
    ?_ ?_ ?_ ?_ ?_ ?_ ?_ a b
  · intro v₁ vd₁ p₁ c₁ v₂ vd₂ p₂ c₂ ih
    show (optPyEq v₁ v₂ && vd₁ == vd₂ && p₁ == p₂ && childrenOptBeq c₁ c₂)
      = (optPyEq v₂ v₁ && vd₂ == vd₁ && p₂ == p₁ && childrenOptBeq c₂ c₁)
    rw [ih, optPyEq_comm, beq_symm_of_lawful vd₁ vd₂,
      beq_symm_of_lawful p₁ p₂]
  · rfl
  · intro a b ih
    show childrenBeq a b = childrenBeq b a
    exact ih
  · intro t x h1 h2
    cases t <;> cases x <;>
      first
        | rfl
        | exact (h1 rfl rfl).elim
        | exact (h2 _ _ rfl rfl).elim
  · rfl
  · intro k₁ v₁ r₁ k₂ v₂ r₂ ih1 ih2
    show (k₁ == k₂ && TNode.beq v₁ v₂ && childrenBeq r₁ r₂)
      = (k₂ == k₁ && TNode.beq v₂ v₁ && childrenBeq r₂ r₁)
    rw [ih1, ih2, beq_symm_of_lawful k₁ k₂]
  · intro t x h1 h2
    cases t <;> cases x <;>
      first
        | rfl
        | exact (h1 rfl rfl).elim
        | exact (h2 _ _ _ _ _ _ rfl rfl).elim

theorem getResBeq_comm (a b : GetRes) : GetRes.beq a b = GetRes.beq b a := by
  cases a <;> cases b <;>
    first
      | rfl
      | exact tnodeBeq_comm _ _
      | exact pyObjBeq_comm _ _
      | exact beq_symm_of_lawful _ _

theorem exceptResBeq_comm (a b : Except ErrK GetRes) :
    exceptResBeq a b = exceptResBeq b a := by
  cases a <;> cases b <;>
    first
      | rfl
      | exact beq_symm_of_lawful _ _
      | exact getResBeq_comm _ _

/-! ## `list_children`, `type_path`, `list_all` and `diff` -/

/-- The dict key `'value'`. -/
def valueKey : Str := "value".toList

/-- The dict key `'children'`. -/
def childrenKey : Str := "children".toList

/-- The dict key `'path'`. -/
def pathKey : Str := "path".toList

/-- The dict key `'validator'`. -/
def validatorKey : Str := "validator".toList

/-- The `tp` value `'parent'`. -/
def parentTp : Str := "parent".toList

/-- The `tp` value `'setting'`. -/
def settingTp : Str := "setting".toList

/-- The `tp` value `'neither'`. -/
def neitherTp : Str := "neither".toList

/-- The `tp` value `'all'` (the default of `list_all`). -/
def allTp : Str := "all".toList

/-- Python `k in node` on a get result (`type_path` lines 1008 and 1010
evaluate `'children' in node` and `'value' in node`).  A node dict holds
exactly the keys whose `TNode` field is present (`'path'` always is); on a
children-names list and on a dict value `in` is element/key membership; on
a string value it is substring containment; on any other value Python's
`in` raises `TypeError`. -/
def resMem (k : Str) : GetRes → Except ErrK Bool
  | .node (.mk v vd _ c) =>
    .ok (if k = valueKey then v.isSome
         else if k = childrenKey then c.isSome
         else if k = validatorKey then vd.isSome
         else k == pathKey)
  | .names l => .ok (l.any (fun x => x == k))
  | .value (.dict es) => .ok (es.any (fun e => e.fst == k))
  | .value (.iter xs) => .ok (xs.any (fun x => PyObj.beq x (.str k)))
  | .value (.str s) => .ok (decide (k <:+: s))
  | .value _ => .error .typeError

/-- `Tree.list_children(path)` (source lines 864–904): get the node at
`path` and return its children names if it is a dict with a dict
`'children'` entry, and `[]` otherwise.  Exceptions of the get propagate.
The get returns a node dict only for trailing-separator paths; a raw dict
value with a dict `'children'` entry passes the same `isinstance` checks,
so its keys are returned too. -/
def listChildren (gfuel : Nat) (root : TNode) (path : Str) :
    Except ErrK (List Str) :=
  match getSettingByPath gfuel root path with
  | .error e => .error e
  | .ok (.node (.mk _ _ _ (some cs))) => .ok (cs.map Prod.fst)
  | .ok (.value (.dict es)) =>
    match es.find? (fun e => e.fst == childrenKey) with
    | some (_, .dict inner) => .ok (inner.map Prod.fst)
    | _ => .ok []
  | .ok _ => .ok []

/-- The subscript `child['path']` of `list_all` (source line 953) on a get
result: the stored path of a node dict; the `'path'` entry of a dict value
(`KeyError` if absent, and a non-string path makes every later path
operation fail, summarised as `TypeError`); `TypeError` on a list (list
indices are not strings) and on plain values. -/
def resPathEntry : GetRes → Except ErrK Str
  | .node n => .ok n.pathF
  | .value (.dict es) =>
    match es.find? (fun e => e.fst == pathKey) with
    | some (_, .str s) => .ok s
    | some _ => .error .typeError
    | Option.none => .error .keyError
  | _ => .error .typeError

/-- `Tree.type_path(path)` (source lines 965–1013): a trailing separator is
appended if missing (`path[-1]` on an empty string raising `IndexError`),
the node is fetched, and the presence of the `'children'` and `'value'`
keys decides between `'parent'`, `'setting'` and `'neither'`. -/
def typePath (gfuel : Nat) (root : TNode) (path : Str) : Except ErrK Str :=
  match path.getLast? with
  | Option.none => .error .indexError
  | some c =>
    match getSettingByPath gfuel root
        (if c = '/' then path else path ++ ['/']) with
    | .error e => .error e
    | .ok node =>
      match resMem childrenKey node with
      | .error e => .error e
      | .ok hasChildren =>
        match resMem valueKey node with
        | .error e => .error e
        | .ok hasValue =>
          if hasChildren && !hasValue then .ok parentTp
          else if !hasChildren && hasValue then .ok settingTp
          else .ok neitherTp

/-- The filter of `list_all` (source lines 957–959):
`itertools.filterfalse(lambda x: self.type_path(x) != tp, children)` keeps
the paths whose type is `tp`; exceptions of `type_path` propagate. -/
def filterTp (gfuel : Nat) (root : TNode) (tp : Str) :
    List Str → Except ErrK (List Str)
  | [] => .ok []
  | x :: rest =>
    match typePath gfuel root x with
    | .error e => .error e
    | .ok t =>
      match filterTp gfuel root tp rest with
      | .error e => .error e
      | .ok more => .ok (if t = tp then x :: more else more)

/-- `children.sort()` (source lines 962 and 1099–1101): Python's stable
sort under the default lexicographic string order. -/
def sortStr (l : List Str) : List Str :=
  l.insertionSort (fun a b => a ≤ b)

mutual

/-- `Tree.list_all(path, tp)` (source lines 906–963): the direct children
names joined onto `path`, extended by recursing into each direct child's
stored path (the `for` loop ranges over the original list only, since
`range(0, len(children))` is evaluated before the `extend` calls), filtered
by type when `tp` selects a kind, and sorted.  The fuel models the call
stack (`RecursionError` when exhausted); `gfuel` is the separate stack
budget of the path-resolution recursion. -/
def listAll : Nat → Nat → TNode → Str → Str → Except ErrK (List Str)
  | 0, _, _, _, _ => .error .recursionError
  | Nat.succ fuel, gfuel, root, path, tp =>
    match listChildren gfuel root path with
    | .error e => .error e
    | .ok names =>
      match listAllLoop fuel gfuel root
          (names.map (fun x => posixJoin path x)) with
      | .error e => .error e
      | .ok exts =>
        if tp = parentTp ∨ tp = settingTp ∨ tp = neitherTp then
          match filterTp gfuel root tp
              (names.map (fun x => posixJoin path x) ++ exts) with
          | .error e => .error e
          | .ok filtered => .ok (sortStr filtered)
        else .ok (sortStr (names.map (fun x => posixJoin path x) ++ exts))

/-- The `for` loop of `list_all` (source lines 950–953): for each direct
child path, get the child node (with a trailing separator), recurse into
its stored `'path'` with the default `tp='all'`, and concatenate the
results in order. -/
def listAllLoop : Nat → Nat → TNode → List Str → Except ErrK (List Str)
  | 0, _, _, _ => .error .recursionError
  | Nat.succ _, _, _, [] => .ok []
  | Nat.succ fuel, gfuel, root, x :: rest =>
    match getSettingByPath gfuel root (x ++ ['/']) with
    | .error e => .error e
    | .ok child =>
      match resPathEntry child with
      | .error e => .error e
      | .ok cpath =>
        match listAll fuel gfuel root cpath allTp with
        | .error e => .error e
        | .ok sub =>
          match listAllLoop fuel gfuel root rest with
          | .error e => .error e
          | .ok more => .ok (sub ++ more)

end

/-- The filter of `diff` (source lines 1104–1106):
`itertools.filterfalse(lambda x: self.get_setting_by_path(x) ==
sio.get_setting_by_path(x), in_both)` keeps the common settings whose two
gets compare unequal; exceptions of either get propagate. -/
def diffFilter (gfuel : Nat) (A B : TNode) :
    List Str → Except ErrK (List Str)
  | [] => .ok []
  | x :: rest =>
    match getSettingByPath gfuel A x with
    | .error e => .error e
    | .ok ra =>
      match getSettingByPath gfuel B x with
      | .error e => .error e
      | .ok rb =>
        match diffFilter gfuel A B rest with
        | .error e => .error e
        | .ok more => .ok (if GetRes.beq ra rb then more else x :: more)

/-- The body of `Tree.diff` after both `list_all(tp='setting')` calls
(source lines 1089–1108).  Python packs the two lists into `set`s
(modelled by `dedup`: later duplicates dropped, order immaterial under the
final sorts), takes the two differences and the intersection (membership
tests on the deduplicated lists), sorts all three, and keeps the common
settings with differing values. -/
def diffCombine (gfuel : Nat) (A B : TNode)
    (childrenL sioChildrenL : List Str) :
    Except ErrK (List Str × List Str × List Str) :=
  match diffFilter gfuel A B (sortStr (childrenL.dedup.filter
      (fun x => sioChildrenL.dedup.contains x))) with
  | .error e => .error e
  | .ok different =>
    .ok (different,
      sortStr (childrenL.dedup.filter
        (fun x => !(sioChildrenL.dedup.contains x))),
      sortStr (sioChildrenL.dedup.filter
        (fun x => !(childrenL.dedup.contains x))))

/-- `Tree.diff(tree_or_Tree)` (source lines 1015–1108): list all settings
of both trees from the root, then compare per `diffCombine`.  Both trees
get the same stack budgets, which only model recursion depth. -/
def diff (fuel gfuel : Nat) (A B : TNode) :
    Except ErrK (List Str × List Str × List Str) :=
  match listAll fuel gfuel A ['/'] settingTp with
  | .error e => .error e
  | .ok childrenL =>
    match listAll fuel gfuel B ['/'] settingTp with
    | .error e => .error e
    | .ok sioChildrenL => diffCombine gfuel A B childrenL sioChildrenL

theorem sortStr_eq_of_perm {l l' : List Str} (h : l.Perm l') :
    sortStr l = sortStr l' :=
  List.eq_of_perm_of_sorted
    ((List.perm_insertionSort _ l).trans
      (h.trans (List.perm_insertionSort _ l').symm))
    (List.sorted_insertionSort _ l)
    (List.sorted_insertionSort _ l')

theorem filterContains_comm (a b : List Str) (ha : a.Nodup)
    (hb : b.Nodup) :
    sortStr (a.filter (fun x => b.contains x))
      = sortStr (b.filter (fun x => a.contains x)) := by
  apply sortStr_eq_of_perm
  rw [List.perm_ext_iff_of_nodup (ha.filter _) (hb.filter _)]
  intro x
  simp only [List.mem_filter, List.elem_iff]
  exact and_comm

theorem diffFilter_swap (g : Nat) (A B : TNode) :
    ∀ (l d : List Str), diffFilter g A B l = .ok d →
      diffFilter g B A l = .ok d := by
  intro l
  induction l with
  | nil => intro d h; exact h
  | cons x rest ih =>
    intro d h
    simp only [diffFilter] at h ⊢
    cases hra : getSettingByPath g A x with
    | error e => rw [hra] at h; exact Except.noConfusion h
    | ok ra =>
      rw [hra] at h
      cases hrb : getSettingByPath g B x with
      | error e => rw [hrb] at h; exact Except.noConfusion h
      | ok rb =>
        rw [hrb] at h
        cases hrest : diffFilter g A B rest with
        | error e => rw [hrest] at h; exact Except.noConfusion h
        | ok more =>
          rw [hrest] at h
          rw [ih more hrest]
          have h' : (Except.ok
              (if GetRes.beq ra rb then more else x :: more)
              : Except ErrK (List Str)) = .ok d := h
          show (Except.ok (if GetRes.beq rb ra then more else x :: more)
            : Except ErrK (List Str)) = .ok d
          rw [getResBeq_comm rb ra]
          exact h'

theorem diffCombine_swap (gfuel : Nat) (A B : TNode)
    (la lb c oA oB : List Str)
    (h : diffCombine gfuel A B la lb = .ok (c, oA, oB)) :
    diffCombine gfuel B A lb la = .ok (c, oB, oA) := by
  unfold diffCombine at h ⊢
  cases hF : diffFilter gfuel A B (sortStr (la.dedup.filter
      (fun x => lb.dedup.contains x))) with
  | error e => rw [hF] at h; exact Except.noConfusion h
  | ok d =>
    rw [hF] at h
    have h' : (Except.ok (d,
        sortStr (la.dedup.filter (fun x => !(lb.dedup.contains x))),
        sortStr (lb.dedup.filter (fun x => !(la.dedup.contains x))))
        : Except ErrK (List Str × List Str × List Str))
        = .ok (c, oA, oB) := h
    simp only [Except.ok.injEq, Prod.mk.injEq] at h'
    obtain ⟨hc, hoA, hoB⟩ := h'
    rw [filterContains_comm lb.dedup la.dedup (List.nodup_dedup lb)
      (List.nodup_dedup la)]
    rw [diffFilter_swap gfuel A B _ d hF]
    show (Except.ok (d,
        sortStr (lb.dedup.filter (fun x => !(la.dedup.contains x))),
        sortStr (la.dedup.filter (fun x => !(lb.dedup.contains x))))
        : Except ErrK (List Str × List Str × List Str))
        = .ok (c, oB, oA)
    rw [hc, hoA, hoB]

/-- C9: `diff` is symmetric — if `A.diff(B)` returns the triple
`(changed, onlyA, onlyB)` then `B.diff(A)` returns
`(changed, onlyB, onlyA)`: the changed-paths list is identical and the two
only-in lists are swapped. -/
theorem C9_diff_symmetry (fuel gfuel : Nat) (A B : TNode)
    (c oA oB : List Str)
    (h : diff fuel gfuel A B = .ok (c, oA, oB)) :
    diff fuel gfuel B A = .ok (c, oB, oA) := by
  unfold diff at h ⊢
  cases hA : listAll fuel gfuel A ['/'] settingTp with
  | error e => rw [hA] at h; exact Except.noConfusion h
  | ok la =>
    rw [hA] at h
    cases hB : listAll fuel gfuel B ['/'] settingTp with
    | error e => rw [hB] at h; exact Except.noConfusion h
    | ok lb =>
      rw [hB] at h
      have h' : diffCombine gfuel A B la lb = .ok (c, oA, oB) := h
      show diffCombine gfuel B A lb la = .ok (c, oB, oA)
      exact diffCombine_swap gfuel A B la lb c oA oB h'

/-- Witness for C9 on the concrete trees: `exTreeCross` holds the settings
`/x` (value 1) and `/y` (value 1), `exTreeReject` only `/x` (value 3), so
the diff one way is `(['/x'], ['/y'], [])` and the other way swaps the two
only-in lists. -/
theorem C9_witness :
    diff 9 9 exTreeCross exTreeReject
        = .ok (["/x".toList], ["/y".toList], ([] : List Str))
      ∧ diff 9 9 exTreeReject exTreeCross
        = .ok (["/x".toList], ([] : List Str), ["/y".toList]) :=
  ⟨rfl, C9_diff_symmetry 9 9 exTreeCross exTreeReject
    ["/x".toList] ["/y".toList] [] rfl⟩

end SettingsTreeSpec
